import Mathlib

/-!
Verification of the twitchpoint farmer core: a shallow embedding of the
Go sources (internal/farmer, internal/twitch, drops tracker) together with
theorems settling the specification claims about them.

Times are modelled in seconds (30 minutes = 1800 s), machine integers as
Lean `Int` with an explicit 64-bit wrap where Go overflow matters.
-/

namespace Twitchpoint

/-! ## Time-based drops (`TimeBasedDrop`, from the drops GQL file) -/

/-- Smallest value of a Go `int` (64-bit). -/
def int64Min : Int := -(2 ^ 63)

/-- Largest value of a Go `int` (64-bit). -/
def int64Max : Int := 2 ^ 63 - 1

/-- Two-complement 64-bit wrap-around, the semantics of Go `int` arithmetic. -/
def wrap64 (x : Int) : Int := (x + 2 ^ 63) % 2 ^ 64 - 2 ^ 63

/-- `TimeBasedDrop`: a single drop within a campaign (progress fields only;
identity strings are irrelevant to the arithmetic claims). -/
structure TimeBasedDrop where
  requiredMinutesWatched : Int
  currentMinutesWatched : Int
deriving DecidableEq, Repr

/-- Embeds Go `TimeBasedDrop.ProgressPercent`: guarded division
`(CurrentMinutesWatched * 100) / RequiredMinutesWatched` (Go `int` product wraps
at 64 bits, quotient truncates toward zero) clamped above at 100. -/
def TimeBasedDrop.progressPercent (d : TimeBasedDrop) : Int :=
  if d.requiredMinutesWatched ≤ 0 then 0
  else
    let pct := Int.tdiv (wrap64 (d.currentMinutesWatched * 100)) d.requiredMinutesWatched
    if pct > 100 then 100 else pct

/-- Embeds Go `TimeBasedDrop.IsComplete`. -/
def TimeBasedDrop.isComplete (d : TimeBasedDrop) : Bool :=
  0 < d.requiredMinutesWatched && d.requiredMinutesWatched ≤ d.currentMinutesWatched

/-! ## Spade heartbeats (`SpadeTracker.sendHeartbeat`, `heartbeatLoop`) -/

/-- Seconds between heartbeats (`heartbeatInterval = 60 * time.Second`). -/
def heartbeatInterval : Nat := 60

/-- Retry budget of `sendHeartbeat` (`heartbeatMaxRetries = 2`). -/
def heartbeatMaxRetries : Nat := 2

/-- Outcome of one HTTP POST to the Spade endpoint: a transport error from
`httpClient.Do`, or a response with the given status code. -/
inductive HBOutcome where
  | transportError
  | httpStatus (code : Nat)
deriving DecidableEq, Repr

/-- Result of one `sendHeartbeat` call: how many requests went out, the sleeps
taken between attempts (seconds), whether it returned on a good status, and
whether it exhausted its retries and gave up with a log line.  The Go function
returns nothing, so there is no error case to model. -/
structure HBSendResult where
  requests : Nat
  sleeps : List Nat
  success : Bool
  gaveUp : Bool
deriving DecidableEq, Repr

/-- Whether an attempt outcome ends `sendHeartbeat` successfully: the code
accepts exactly `http.StatusOK` (200) and `http.StatusNoContent` (204). -/
def hbOk (o : HBOutcome) : Bool :=
  match o with
  | .transportError => false
  | .httpStatus code => code == 200 || code == 204

/-- The retry loop of Go `SpadeTracker.sendHeartbeat`, one step per attempt.
`out n` is the outcome of the request made on attempt number `attempt + ...`;
`retriesLeft` counts the remaining retries (`heartbeatMaxRetries - attempt`).
On failure with retries left the code sleeps `(attempt+1) * 3` seconds and
continues; with none left it logs and returns. -/
def sendHeartbeatFrom (out : Nat → HBOutcome) : Nat → Nat → HBSendResult
  | attempt, 0 =>
      if hbOk (out attempt) then ⟨1, [], true, false⟩
      else ⟨1, [], false, true⟩
  | attempt, retriesLeft + 1 =>
      if hbOk (out attempt) then ⟨1, [], true, false⟩
      else
        let r := sendHeartbeatFrom out (attempt + 1) retriesLeft
        ⟨r.requests + 1, (attempt + 1) * 3 :: r.sleeps, r.success, r.gaveUp⟩

/-- Go `SpadeTracker.sendHeartbeat`, starting at attempt 0 with the full
retry budget. -/
def sendHeartbeat (out : Nat → HBOutcome) : HBSendResult :=
  sendHeartbeatFrom out 0 heartbeatMaxRetries

/-- Send times (seconds since slot acquisition) produced by
`SpadeTracker.heartbeatLoop` after `n` ticker ticks: one heartbeat immediately,
then one per `heartbeatInterval` tick. -/
def heartbeatSendTimes : Nat → List Nat
  | 0 => [0]
  | n + 1 => heartbeatSendTimes n ++ [heartbeatInterval * (n + 1)]

/-! ## Reconnect backoff (`PubSubClient.connectWithRetry`, `IRCClient.connectLoop`) -/

/-- Floor of the PubSub backoff (`reconnectBase = 1 * time.Second`). -/
def reconnectBase : Nat := 1

/-- Cap of the PubSub backoff (`reconnectMax = 2 * time.Minute`). -/
def reconnectMax : Nat := 120

/-- Outcome of one connection attempt: the dial failed, or the connection was
established and lived for `lifetime` seconds before its read loop returned. -/
inductive ConnOutcome where
  | dialFailed
  | connected (lifetime : Nat)
deriving DecidableEq, Repr

/-- One iteration of Go `PubSubClient.connectWithRetry` (the non-closed path),
returning the seconds slept before the next attempt and the new backoff.
On a disconnect the backoff is reset to the floor only when the connection
survived more than 30 seconds; the loop then sleeps the (possibly reset)
backoff and doubles it, capping at `reconnectMax`. A failed dial sleeps the
current backoff and doubles it the same way. -/
def pubsubBackoffStep (backoff : Nat) (o : ConnOutcome) : Nat × Nat :=
  match o with
  | .connected lifetime =>
      let b := if 30 < lifetime then reconnectBase else backoff
      let doubled := b * 2
      (b, if reconnectMax < doubled then reconnectMax else doubled)
  | .dialFailed =>
      let doubled := backoff * 2
      (backoff, if reconnectMax < doubled then reconnectMax else doubled)

/-- One iteration of Go `IRCClient.connectLoop` (the non-stopped path).
A failed `connect` sleeps the current backoff and doubles it, capping at
30 seconds. A successful connect resets the backoff to one second before
running the read loop, and after the read loop returns the next connect is
attempted immediately (no sleep), whatever the connection lifetime was. -/
def ircBackoffStep (backoff : Nat) (o : ConnOutcome) : Nat × Nat :=
  match o with
  | .connected _ => (0, 1)
  | .dialFailed =>
      let doubled := backoff * 2
      (backoff, if 30 < doubled then 30 else doubled)

/-- Backoff value after `n` consecutive failed connection attempts, starting
from the 1-second floor, under a given reconnect step function. -/
def backoffAfterFails (step : Nat → ConnOutcome → Nat × Nat) : Nat → Nat
  | 0 => 1
  | n + 1 => (step (backoffAfterFails step n) .dialFailed).2

/-- Frames the PubSub read loop can receive, after JSON decoding
(`PubSubIncoming.Type`): PONG, RECONNECT, a RESPONSE carrying an error string,
a MESSAGE, or an undecodable frame. -/
inductive PubSubFrame where
  | pong
  | reconn
  | response (err : String)
  | message
  | malformed
deriving DecidableEq, Repr

/-- Exit reason of the PubSub read loop: a read error (here: the frame stream
ended), or a server-requested reconnect. -/
inductive PubSubExit where
  | readError
  | serverReconnect
deriving DecidableEq, Repr

/-- Go `PubSubClient.readLoop` over a stream of decoded frames: PONG and
MESSAGE frames are consumed, a RESPONSE with a non-empty error emits a
listen-error event, undecodable frames are skipped, and a RECONNECT frame
closes the connection and exits immediately, leaving later frames unread. -/
def pubsubReadLoop : List PubSubFrame → List String × PubSubExit
  | [] => ([], .readError)
  | f :: rest =>
    match f with
    | .reconn => ([], .serverReconnect)
    | .response err =>
        let r := pubsubReadLoop rest
        if err = "" then r else (("listen error: " ++ err) :: r.1, r.2)
    | _ => pubsubReadLoop rest

/-- What Go `connectWithRetry` does once `readLoop` returns on a live client:
it emits one disconnected error event on the farmer event channel (whatever
the exit reason was), resets the backoff to the floor only when the connection
survived more than 30 seconds, sleeps that backoff, and doubles it with the
cap. Returns (error events emitted, seconds slept, new backoff). -/
def pubsubDisconnectCycle (backoff lifetime : Nat) : Nat × Nat × Nat :=
  let s := pubsubBackoffStep backoff (.connected lifetime)
  (1, s.1, s.2)

/-! ## Farmer startup (`Farmer.Start`) -/

/-- Environment of one `Farmer.Start` run: which of the fallible
initialization steps fail.  `channelAddFails` has one entry per configured
channel login. -/
structure StartEnv where
  openLogFails : Bool
  authFails : Bool
  spadeInitFails : Bool
  pubsubUserTopicFails : Bool
  channelAddFails : List Bool
deriving DecidableEq, Repr

/-- The error returned by `Farmer.Start` when it fails. -/
inductive StartError where
  | openDebugLog
  | authValidation
deriving DecidableEq, Repr

/-- Go `Farmer.Start`: opening `debug.log` and validating the auth token are
the only steps whose failure aborts with a non-nil error; a Spade
initialization failure, a PubSub user-topic subscribe failure and per-channel
add failures are written to the log and startup proceeds to return nil. -/
def farmerStart (env : StartEnv) : Except StartError Unit × List String :=
  if env.openLogFails then (.error .openDebugLog, [])
  else if env.authFails then (.error .authValidation, [])
  else
    let spadeLog := if env.spadeInitFails then ["Spade initialization warning"] else []
    let pubsubLog := if env.pubsubUserTopicFails then ["PubSub user topic error"] else []
    let channelLog := env.channelAddFails.filterMap
      (fun fails => if fails then some "Failed to add channel" else none)
    (.ok (), spadeLog ++ pubsubLog ++ channelLog)

/-! ## Event dedup (`Farmer.handleEvent`, claim and raid branches) -/

/-- Retention window of the dedup caches, in seconds (`30 * time.Minute`). -/
def dedupWindow : Nat := 1800

/-- The dedup-relevant part of the farmer state: the two caches
(`seenClaims`, `seenRaids`, each identifier paired with its insertion time)
and the counters. The caches start empty in `Farmer.New`. -/
structure DedupState where
  seenClaims : List (String × Nat)
  seenRaids : List (String × Nat)
  totalClaimsMade : Nat
  totalPointsEarned : Nat
deriving DecidableEq, Repr

/-- The farmer state as built by `Farmer.New`: empty caches, zero counters. -/
def farmerNewState : DedupState := ⟨[], [], 0, 0⟩

/-- The dedup-relevant events of the `FarmerEvent` union. -/
inductive FarmerEvent where
  | claimAvailable (claimID : String)
  | raid (raidID : String)
deriving DecidableEq, Repr

/-- A detached side-effect task launched by `handleEvent`. -/
inductive LaunchedTask where
  | claimTask (claimID : String)
  | raidTask (raidID : String)
deriving DecidableEq, Repr

/-- The cleanup sweep run inside `handleEvent` after inserting a fresh
identifier: every entry with `time.Since(t) > 30*time.Minute` is deleted. -/
def cleanupSeen (now : Nat) (seen : List (String × Nat)) : List (String × Nat) :=
  seen.filter (fun e => !(dedupWindow < now - e.2))

/-- Go `Farmer.handleEvent`, claim and raid branches. A claim event whose ID
is already in `seenClaims` returns at once, launching nothing and touching
nothing; a fresh ID is recorded at the current time, old entries are swept,
and a detached claim task is launched. The raid branch is identical on
`seenRaids`. Other event types touch neither cache. -/
def handleEvent (now : Nat) (evt : FarmerEvent) (st : DedupState) :
    DedupState × List LaunchedTask :=
  match evt with
  | .claimAvailable claimID =>
      if (st.seenClaims.find? (fun e => e.1 = claimID)).isSome then (st, [])
      else
        (⟨cleanupSeen now ((claimID, now) :: st.seenClaims), st.seenRaids,
          st.totalClaimsMade, st.totalPointsEarned⟩,
         [.claimTask claimID])
  | .raid raidID =>
      if (st.seenRaids.find? (fun e => e.1 = raidID)).isSome then (st, [])
      else
        (⟨st.seenClaims, cleanupSeen now ((raidID, now) :: st.seenRaids),
          st.totalClaimsMade, st.totalPointsEarned⟩,
         [.raidTask raidID])

/-- The farmer event loop: events consumed strictly in order by the single
consumer, accumulating the launched detached tasks. -/
def processEvents : List (Nat × FarmerEvent) → DedupState → DedupState × List LaunchedTask
  | [], st => (st, [])
  | (t, e) :: rest, st =>
      let r := handleEvent t e st
      let r2 := processEvents rest r.1
      (r2.1, r.2 ++ r2.2)

/-- Times at which a fixed identifier is delivered as a claim event in a
trace, in trace order. -/
def claimTimes (evs : List (Nat × FarmerEvent)) (id : String) : List Nat :=
  evs.filterMap (fun e => if e.2 = FarmerEvent.claimAvailable id then some e.1 else none)

/-- Times at which a fixed identifier is delivered as a raid event in a
trace, in trace order. -/
def raidTimes (evs : List (Nat × FarmerEvent)) (id : String) : List Nat :=
  evs.filterMap (fun e => if e.2 = FarmerEvent.raid id then some e.1 else none)

/-- All deliveries happen within the retention window of the first one. -/
def withinWindowOfFirst : List Nat → Prop
  | [] => True
  | t1 :: rest => ∀ t ∈ rest, t ≤ t1 + dedupWindow

/-! ## Watch-slot capacity (`SpadeTracker.StartWatching` and the farmer ops) -/

/-- Capacity of the Spade tracker (`maxWatchedChannels = 2`). -/
def maxWatchedChannels : Nat := 2

/-- The watch-relevant joint state: the Spade tracker channel map (keys only)
and the farmer channel map, each channel with its `IsWatching` flag. -/
structure FarmState where
  spadeChannels : List String
  channels : List (String × Bool)
deriving DecidableEq, Repr

/-- Go `SpadeTracker.StartWatching`: an already-watched channel succeeds
without growing the map (the broadcast ID is refreshed, which the keys-only
model drops); at capacity the call fails; otherwise the channel is inserted. -/
def spadeStartWatching (s : List String) (id : String) : Bool × List String :=
  if id ∈ s then (true, s)
  else if maxWatchedChannels ≤ s.length then (false, s)
  else (true, id :: s)

/-- Sets the `IsWatching` flag of one channel (`ChannelState.SetWatching`). -/
def setWatching (chans : List (String × Bool)) (id : String) (b : Bool) :
    List (String × Bool) :=
  chans.map (fun p => if p.1 = id then (p.1, b) else p)

/-- Go `Farmer.tryStartWatching` (also the start phase of `rotateChannels` and
`fetchAndStartWatching`): a channel already watching is left alone; otherwise
`SetWatching(true)` is performed only when `SpadeTracker.StartWatching`
succeeded. The is-online and broadcast-ID guards of the Go code only restrict
when this operation fires and are dropped from the model. -/
def tryStartWatching (st : FarmState) (id : String) : FarmState :=
  match st.channels.find? (fun p => p.1 = id) with
  | none => st
  | some p =>
    if p.2 then st
    else
      let r := spadeStartWatching st.spadeChannels id
      if r.1 then ⟨r.2, setWatching st.channels id true⟩ else ⟨r.2, st.channels⟩

/-- The operations the running farmer performs on the watch-relevant state:
adding a channel (`addChannel`), trying to start watching it, stopping a watch
(`EventStreamDown` handling and the stop phase of `rotateChannels`, both of
which pair `SpadeTracker.StopWatching` with `SetWatching(false)`), and
removing a channel (`RemoveChannelLive`). -/
inductive FarmOp where
  | addChannel (id : String)
  | startWatching (id : String)
  | stopWatching (id : String)
  | removeChannel (id : String)

/-- Effect of one farmer operation on the watch-relevant state. -/
def applyOp (st : FarmState) : FarmOp → FarmState
  | .addChannel id =>
      if id ∈ st.channels.map Prod.fst then st
      else ⟨st.spadeChannels, (id, false) :: st.channels⟩
  | .startWatching id => tryStartWatching st id
  | .stopWatching id => ⟨st.spadeChannels.erase id, setWatching st.channels id false⟩
  | .removeChannel id => ⟨st.spadeChannels.erase id, st.channels.filter (fun p => p.1 ≠ id)⟩

/-- States reachable from the freshly created farmer (both maps empty) by the
farmer operations. -/
inductive ReachableFarm : FarmState → Prop where
  | init : ReachableFarm ⟨[], []⟩
  | step (op : FarmOp) {st : FarmState} : ReachableFarm st → ReachableFarm (applyOp st op)

/-- Number of tracked channels whose `IsWatching` flag is set. -/
def watchingCount (st : FarmState) : Nat :=
  (st.channels.filter (fun p => p.2)).length

/-- The inductive invariant of the watch-relevant state: channel keys are
distinct (they key a Go map), the Spade channel set is a distinct list within
capacity, and every channel flagged as watching is in the Spade set. -/
def FarmInv (st : FarmState) : Prop :=
  (st.channels.map Prod.fst).Nodup ∧
  st.spadeChannels.Nodup ∧
  st.spadeChannels.length ≤ maxWatchedChannels ∧
  ∀ p ∈ st.channels, p.2 = true → p.1 ∈ st.spadeChannels

/-! ## Channel rotation (`Farmer.rotateChannels`, desired-set computation) -/

/-- Slot capacity of the rotation (`maxSlots = 2` in `rotateChannels`). -/
def rotMaxSlots : Nat := 2

/-- The rotation-relevant snapshot of one channel. -/
structure RotChannel where
  channelID : String
  priority : Int
  isOnline : Bool
deriving DecidableEq, Repr

instance : Inhabited RotChannel := ⟨⟨"", 0, false⟩⟩

/-- Comparator of `rotateChannels`: ascending by channel ID. -/
def rotLE (a b : RotChannel) : Prop := a.channelID ≤ b.channelID

instance : DecidableRel rotLE := fun a b =>
  inferInstanceAs (Decidable (a.channelID ≤ b.channelID))

instance : IsTotal RotChannel rotLE := ⟨fun a b => le_total a.channelID b.channelID⟩

instance : IsTrans RotChannel rotLE := ⟨fun _ _ _ h h2 => le_trans h h2⟩

/-- The priority-1 loop of `rotateChannels`: fill the desired set from the
sorted Always-priority list, breaking once `maxSlots` are used; returns the
channels taken and the final `slotsUsed`. -/
def rotFillP1 : List RotChannel → Nat → List RotChannel × Nat
  | [], used => ([], used)
  | c :: rest, used =>
      if rotMaxSlots ≤ used then ([], used)
      else
        let r := rotFillP1 rest (used + 1)
        (c :: r.1, r.2)

/-- The priority-2 loop of `rotateChannels`:
`for i := 0; i < remainingSlots && i < len(priority2); i++` taking
`priority2[(idx+i) % len(priority2)]`. -/
def rotFillP2 (p2 : List RotChannel) (idx remaining : Nat) (i : Nat) : List RotChannel :=
  if h : i < remaining ∧ i < p2.length then
    p2.getD ((idx + i) % p2.length) default :: rotFillP2 p2 idx remaining (i + 1)
  else []
termination_by remaining - i
decreasing_by
  have := h.1
  omega

/-- The Always-priority partition of `rotateChannels`: online channels with
`Priority == 1`, sorted ascending by channel ID. -/
def rotPriority1 (chans : List RotChannel) : List RotChannel :=
  List.insertionSort rotLE (chans.filter (fun c => c.isOnline && c.priority == 1))

/-- The Rotate-priority partition of `rotateChannels`: the other online
channels, sorted ascending by channel ID. -/
def rotPriority2 (chans : List RotChannel) : List RotChannel :=
  List.insertionSort rotLE (chans.filter (fun c => c.isOnline && !(c.priority == 1)))

/-- The desired-set computation of Go `Farmer.rotateChannels`: partition the
online channels into Always-priority and Rotate-priority lists, sort each
ascending by channel ID, fill up to two slots from the first list, then fill
the remaining slots from the second starting at the rotation cursor, which
advances by the number of remaining slots modulo the list length.  Returns
the desired channels and the new rotation index. -/
def rotateChannelsCompute (chans : List RotChannel) (rotationIndex : Nat) :
    List RotChannel × Nat :=
  let priority1 := rotPriority1 chans
  let priority2 := rotPriority2 chans
  let fill := rotFillP1 priority1 0
  let remainingSlots := rotMaxSlots - fill.2
  if 0 < remainingSlots ∧ 0 < priority2.length then
    let idx := rotationIndex % priority2.length
    let newIndex := (rotationIndex + remainingSlots) % priority2.length
    (fill.1 ++ rotFillP2 priority2 idx remainingSlots 0, newIndex)
  else (fill.1, rotationIndex)

/-! ## Drop best-candidate selection (`Farmer.processDrops`) -/

/-- The candidate-relevant snapshot of one matched channel. -/
structure DropCandidate where
  channelID : String
  login : String
  isOnline : Bool
  isWatching : Bool
  isTemporary : Bool
deriving DecidableEq, Repr

/-- The score one candidate receives inside the selection loop of
`processDrops`, given the running best score: 0, raised to 1 when online and
to 2 when currently watched, then incremented once more when the channel is
not temporary and the score equals the running best. -/
def candScore (bestScore : Int) (c : DropCandidate) : Int :=
  let s1 : Int := if c.isOnline then 1 else 0
  let s2 : Int := if c.isWatching then 2 else s1
  if !c.isTemporary && s2 == bestScore then s2 + 1 else s2

/-- The selection loop of `processDrops` over the matched channels in
iteration order, carrying the best candidate and best score (started at -1). -/
def selectBestAux : List DropCandidate → Option DropCandidate × Int → Option DropCandidate × Int
  | [], acc => acc
  | c :: rest, acc =>
      let score := candScore acc.2 c
      if acc.2 < score then selectBestAux rest (some c, score)
      else selectBestAux rest acc

/-- The best-candidate choice of `processDrops` for one uncompleted drop. -/
def selectBest (l : List DropCandidate) : Option DropCandidate :=
  (selectBestAux l (none, -1)).1

/-! ## Theorems -/

/-- C10 counterexample: `ProgressPercent` is not bounded below by 0 on every
input — a drop with `RequiredMinutesWatched = 100` and
`CurrentMinutesWatched = -100` yields `-100`, outside `[0, 100]`. -/
theorem progress_percent_counterexample :
    TimeBasedDrop.progressPercent ⟨100, -100⟩ = -100 ∧
      TimeBasedDrop.progressPercent ⟨100, -100⟩ < 0 := by
  constructor <;> decide

/-- Helper: the 64-bit wrap is the identity on values already in range. -/
theorem wrap64_eq_self (x : Int) (h0 : -(2 ^ 63) ≤ x) (h1 : x < 2 ^ 63) :
    wrap64 x = x := by
  unfold wrap64
  rw [Int.emod_eq_of_lt (by omega) (by omega)]
  omega

/-- C10 (amended): for every drop with a non-negative current-minutes value
whose scaled product does not overflow a 64-bit `int`, `ProgressPercent`
returns a value in `[0, 100]`; the division is guarded (`Required ≤ 0` yields
0) and values above 100 are clamped.  (For a negative `CurrentMinutesWatched`,
or one large enough that `current * 100` overflows, the result can be
negative, as the counterexample shows.) -/
theorem progress_percent_amended (d : TimeBasedDrop)
    (h0 : 0 ≤ d.currentMinutesWatched)
    (h1 : d.currentMinutesWatched * 100 ≤ int64Max) :
    0 ≤ d.progressPercent ∧ d.progressPercent ≤ 100 ∧
      (d.requiredMinutesWatched ≤ 0 → d.progressPercent = 0) := by
  unfold TimeBasedDrop.progressPercent
  by_cases hreq : d.requiredMinutesWatched ≤ 0
  · simp [hreq]
  · rw [if_neg hreq]
    push_neg at hreq
    have hnum : 0 ≤ d.currentMinutesWatched * 100 := by
      exact mul_nonneg h0 (by omega)
    have hw : wrap64 (d.currentMinutesWatched * 100) = d.currentMinutesWatched * 100 := by
      refine wrap64_eq_self _ (by omega) ?_
      have : int64Max < 2 ^ 63 := by decide
      omega
    have hdiv : 0 ≤ Int.tdiv (wrap64 (d.currentMinutesWatched * 100)) d.requiredMinutesWatched := by
      rw [hw]
      exact Int.tdiv_nonneg hnum (le_of_lt hreq)
    refine ⟨?_, ?_, fun hle => absurd hle (not_le.mpr hreq)⟩ <;>
      · dsimp only
        split <;> omega

/-- C10 witness: the amended bound instantiated at a concrete drop. -/
theorem progress_percent_witness :
    0 ≤ TimeBasedDrop.progressPercent ⟨100, 50⟩ ∧
      TimeBasedDrop.progressPercent ⟨100, 50⟩ ≤ 100 ∧
      ((100 : Int) ≤ 0 → TimeBasedDrop.progressPercent ⟨100, 50⟩ = 0) :=
  progress_percent_amended ⟨100, 50⟩ (by decide) (by decide)

/-- C9 (code bug): with matched channels iterated as two online non-temporary
channels followed by a currently-watched temporary one, the selection loop of
`processDrops` picks the second online channel, not the currently-watched one:
the second online channel ties the running best score and receives the
non-temporary increment, inflating the best score to 2, which the
currently-watched channel (score 2, no increment because temporary) can no
longer beat.  This contradicts the loop's own comment
(watching > online > offline, prefer non-temporary). -/
theorem drop_best_candidate_bug :
    selectBest [⟨"1", "a", true, false, false⟩, ⟨"2", "b", true, false, false⟩,
        ⟨"3", "c", true, true, true⟩] =
      some ⟨"2", "b", true, false, false⟩ ∧
    (⟨"2", "b", true, false, false⟩ : DropCandidate).isWatching = false ∧
    (⟨"3", "c", true, true, true⟩ : DropCandidate).isWatching = true := by
  refine ⟨?_, rfl, rfl⟩
  decide

/-- C3 counterexample: `Farmer.Start` also returns a non-nil error when
opening `debug.log` fails, before identity validation is even attempted. -/
theorem start_fatal_counterexample :
    (farmerStart ⟨true, false, false, false, []⟩).1 = .error .openDebugLog ∧
      StartError.openDebugLog ≠ StartError.authValidation := by
  exact ⟨rfl, by decide⟩

/-- C3 (amended): `Farmer.Start` returns a non-nil error exactly when opening
the `debug.log` file fails or identity validation fails; a Spade
initialization failure, a PubSub user-topic subscribe failure, and failures
adding configured channels are only logged and `Start` still returns nil. -/
theorem start_fatal_amended (env : StartEnv) :
    ((farmerStart env).1 = .ok () ↔ env.openLogFails = false ∧ env.authFails = false) ∧
    (env.openLogFails = true → (farmerStart env).1 = .error .openDebugLog) ∧
    (env.openLogFails = false → env.authFails = true →
      (farmerStart env).1 = .error .authValidation) := by
  unfold farmerStart
  cases h1 : env.openLogFails <;> cases h2 : env.authFails <;> simp [h1, h2]

/-- C3 witness: the amended classification at concrete environments — every
non-fatal subsystem failure present, yet `Start` returns nil. -/
theorem start_fatal_witness :
    (farmerStart ⟨false, false, true, true, [true, true]⟩).1 = .ok () ∧
      (farmerStart ⟨true, false, false, false, []⟩).1 = .error .openDebugLog ∧
      (farmerStart ⟨false, true, false, false, []⟩).1 = .error .authValidation :=
  ⟨(start_fatal_amended ⟨false, false, true, true, [true, true]⟩).1.mpr ⟨rfl, rfl⟩,
   (start_fatal_amended ⟨true, false, false, false, []⟩).2.1 rfl,
   (start_fatal_amended ⟨false, true, false, false, []⟩).2.2 rfl rfl⟩

/-- C7 counterexample: the two reconnect policies differ at a concrete input —
after a connection that lived 10 seconds the IRC loop retries immediately with
backoff reset to 1 s while the PubSub loop sleeps 1 s and doubles to 2 s, and
after six consecutive failed dials IRC sits at its 30 s cap while PubSub is at
64 s. -/
theorem irc_pubsub_backoff_counterexample :
    ircBackoffStep 1 (.connected 10) ≠ pubsubBackoffStep 1 (.connected 10) ∧
      backoffAfterFails ircBackoffStep 6 = 30 ∧
      backoffAfterFails pubsubBackoffStep 6 = 64 := by
  refine ⟨by decide, by decide, by decide⟩

/-- C8 counterexample: on a server RECONNECT directive received 10 seconds
into a connection with backoff at the 1 s floor, the subscriber emits one
disconnected error event on the farmer channel and doubles the backoff to
2 s — the directive is penalized and surfaced like any other disconnect. -/
theorem pubsub_reconnect_counterexample :
    pubsubReadLoop [PubSubFrame.reconn] = ([], .serverReconnect) ∧
      pubsubDisconnectCycle 1 10 = (1, 1, 2) ∧
      (pubsubDisconnectCycle 1 10).1 ≠ 0 ∧
      (pubsubDisconnectCycle 1 10).2.2 ≠ 1 := by
  refine ⟨by decide, by decide, by decide, by decide⟩

/-- Helper: the capped doubling written with `if` equals a `min`. -/
theorem cap_double_eq_min (b cap : Nat) :
    (if cap < b * 2 then cap else b * 2) = min (b * 2) cap := by
  rcases le_or_lt (b * 2) cap with h | h
  · rw [if_neg (not_lt.mpr h), Nat.min_eq_left h]
  · rw [if_pos h, Nat.min_eq_right (le_of_lt h)]

/-- Helper: doubling a capped power of two and capping again. -/
theorem min_double_pow (n cap : Nat) (hcap : 1 ≤ cap) :
    min (min (2 ^ n) cap * 2) cap = min (2 ^ (n + 1)) cap := by
  rcases le_or_lt (2 ^ n) cap with h | h
  · rw [Nat.min_eq_left h, pow_succ]
  · rw [Nat.min_eq_right (le_of_lt h)]
    have h2 : cap < 2 ^ (n + 1) :=
      lt_of_lt_of_le h (Nat.pow_le_pow_right (by omega) (Nat.le_succ n))
    rw [Nat.min_eq_right (le_of_lt h2), Nat.min_eq_right (by omega)]

/-- C7 (amended): the presence (IRC) client's reconnect backoff policy is not
identical to the PubSub subscriber's.  IRC starts at 1 s and doubles on each
failed dial but caps at 30 s (not 2 minutes), resets to the 1 s floor after
every successful connection regardless of how long it survived, and applies
no delay at all before redialing after an established connection drops;
PubSub sleeps its current backoff after every disconnect, doubles with a
2-minute cap, and resets to the floor only when the prior connection survived
more than 30 s. -/
theorem irc_pubsub_backoff_amended :
    (∀ n, backoffAfterFails ircBackoffStep n = min (2 ^ n) 30) ∧
    (∀ n, backoffAfterFails pubsubBackoffStep n = min (2 ^ n) reconnectMax) ∧
    (∀ b d, ircBackoffStep b (.connected d) = (0, 1)) ∧
    (∀ b d, pubsubBackoffStep b (.connected d) =
      if 30 < d then (1, min 2 reconnectMax) else (b, min (b * 2) reconnectMax)) ∧
    (∀ b, ircBackoffStep b .dialFailed = (b, min (b * 2) 30)) ∧
    (∀ b, pubsubBackoffStep b .dialFailed = (b, min (b * 2) reconnectMax)) := by
  have hirc : ∀ b, ircBackoffStep b .dialFailed = (b, min (b * 2) 30) := fun b => by
    simp only [ircBackoffStep, cap_double_eq_min]
  have hps : ∀ b, pubsubBackoffStep b .dialFailed = (b, min (b * 2) reconnectMax) := fun b => by
    simp only [pubsubBackoffStep, cap_double_eq_min]
  refine ⟨?_, ?_, fun b d => rfl, ?_, hirc, hps⟩
  · intro n
    induction n with
    | zero => decide
    | succ n ih =>
        rw [backoffAfterFails, ih, hirc]
        exact min_double_pow n 30 (by decide)
  · intro n
    induction n with
    | zero => decide
    | succ n ih =>
        rw [backoffAfterFails, ih, hps]
        exact min_double_pow n reconnectMax (by decide)
  · intro b d
    simp only [pubsubBackoffStep, reconnectBase, cap_double_eq_min]
    split <;> rfl

/-- Helper: the events the PubSub read loop emits are exactly the non-empty
listen errors among the frames before the first RECONNECT directive. -/
theorem pubsubReadLoop_events (frames : List PubSubFrame) :
    (pubsubReadLoop frames).1 =
      (frames.takeWhile (fun f => !(f == PubSubFrame.reconn))).filterMap
        (fun f =>
          match f with
          | PubSubFrame.response err =>
              if err = "" then none else some ("listen error: " ++ err)
          | _ => none) := by
  induction frames with
  | nil => rfl
  | cons f rest ih =>
      cases f with
      | pong => simpa [pubsubReadLoop, List.takeWhile] using ih
      | reconn => simp [pubsubReadLoop, List.takeWhile]
      | message => simpa [pubsubReadLoop, List.takeWhile] using ih
      | malformed => simpa [pubsubReadLoop, List.takeWhile] using ih
      | response err =>
          have hne : (PubSubFrame.response err == PubSubFrame.reconn) = false := rfl
          by_cases he : err = "" <;>
            simp [pubsubReadLoop, List.takeWhile_cons, hne, he, ih]

/-- Helper: the read loop exits with the server-reconnect reason exactly when
a RECONNECT frame is present. -/
theorem pubsubReadLoop_exit (frames : List PubSubFrame) :
    (pubsubReadLoop frames).2 =
      (if PubSubFrame.reconn ∈ frames then PubSubExit.serverReconnect
       else PubSubExit.readError) := by
  induction frames with
  | nil => rfl
  | cons f rest ih =>
      cases f with
      | pong => simpa [pubsubReadLoop] using ih
      | reconn => simp [pubsubReadLoop]
      | message => simpa [pubsubReadLoop] using ih
      | malformed => simpa [pubsubReadLoop] using ih
      | response err =>
          by_cases he : err = "" <;> simp [pubsubReadLoop, he, ih]

/-- C8 (amended): a server RECONNECT directive does make the read loop close
the connection and exit immediately (remaining frames unread, no listen-error
event emitted for the directive itself), but the subscriber then follows the
ordinary reconnect path: it emits one disconnected error event on the farmer
event channel, sleeps the current backoff (reset to the 1 s floor first only
when the connection survived more than 30 s), and doubles it with the
2-minute cap — the directive is not exempt from backoff doubling. -/
theorem pubsub_reconnect_amended :
    (∀ rest, pubsubReadLoop (PubSubFrame.reconn :: rest) = ([], .serverReconnect)) ∧
    (∀ frames, (pubsubReadLoop frames).2 = .serverReconnect ↔ PubSubFrame.reconn ∈ frames) ∧
    (∀ backoff lifetime, pubsubDisconnectCycle backoff lifetime =
      (1, if 30 < lifetime then reconnectBase else backoff,
          min ((if 30 < lifetime then reconnectBase else backoff) * 2) reconnectMax)) := by
  refine ⟨fun rest => rfl, ?_, ?_⟩
  · intro frames
    rw [pubsubReadLoop_exit]
    split <;> simp_all
  · intro backoff lifetime
    simp only [pubsubDisconnectCycle, pubsubBackoffStep, cap_double_eq_min]

/-- Helper: full characterization of the `sendHeartbeat` retry loop from any
attempt number and retry budget. -/
theorem sendHeartbeatFrom_spec (out : Nat → HBOutcome) :
    ∀ retriesLeft attempt,
      1 ≤ (sendHeartbeatFrom out attempt retriesLeft).requests ∧
      (sendHeartbeatFrom out attempt retriesLeft).requests ≤ retriesLeft + 1 ∧
      (sendHeartbeatFrom out attempt retriesLeft).sleeps =
        (List.range ((sendHeartbeatFrom out attempt retriesLeft).requests - 1)).map
          (fun a => (attempt + a + 1) * 3) ∧
      (sendHeartbeatFrom out attempt retriesLeft).success =
        hbOk (out (attempt + (sendHeartbeatFrom out attempt retriesLeft).requests - 1)) ∧
      (∀ j, j + 1 < (sendHeartbeatFrom out attempt retriesLeft).requests →
        hbOk (out (attempt + j)) = false) ∧
      (sendHeartbeatFrom out attempt retriesLeft).gaveUp =
        !(sendHeartbeatFrom out attempt retriesLeft).success := by
  intro retriesLeft
  induction retriesLeft with
  | zero =>
      intro attempt
      by_cases h : hbOk (out attempt) = true <;>
        simp [sendHeartbeatFrom, h]
  | succ k ih =>
      intro attempt
      by_cases h : hbOk (out attempt) = true
      · simp [sendHeartbeatFrom, h]
      · obtain ⟨ih1, ih2, ih3, ih4, ih5, ih6⟩ := ih (attempt + 1)
        rw [Bool.not_eq_true] at h
        have hstep : sendHeartbeatFrom out attempt (k + 1) =
            ⟨(sendHeartbeatFrom out (attempt + 1) k).requests + 1,
             (attempt + 1) * 3 :: (sendHeartbeatFrom out (attempt + 1) k).sleeps,
             (sendHeartbeatFrom out (attempt + 1) k).success,
             (sendHeartbeatFrom out (attempt + 1) k).gaveUp⟩ := by
          rw [sendHeartbeatFrom, h]
          simp
        obtain ⟨m, hm⟩ : ∃ m, (sendHeartbeatFrom out (attempt + 1) k).requests = m + 1 :=
          ⟨(sendHeartbeatFrom out (attempt + 1) k).requests - 1, by omega⟩
        rw [hstep]
        dsimp only
        rw [hm] at ih2 ih3 ih4 ih5 ⊢
        refine ⟨by omega, by omega, ?_, ?_, ?_, ih6⟩
        · rw [ih3, show m + 1 + 1 - 1 = m + 1 by omega, Nat.add_sub_cancel,
            List.range_succ_eq_map, List.map_cons, List.map_map]
          simp only [List.cons.injEq]
          refine ⟨trivial, List.map_congr_left (fun a _ => ?_)⟩
          simp only [Function.comp]
          omega
        · rw [show attempt + (m + 1 + 1) - 1 = attempt + 1 + (m + 1) - 1 by omega]
          exact ih4
        · intro j hj
          match j with
          | 0 => simpa using h
          | j + 1 =>
              have := ih5 j (by omega)
              rw [show attempt + (j + 1) = attempt + 1 + j by omega]
              exact this

/-- Helper: `heartbeatSendTimes` has one send per tick plus the immediate one. -/
theorem heartbeatSendTimes_length (n : Nat) :
    (heartbeatSendTimes n).length = n + 1 := by
  induction n with
  | zero => rfl
  | succ n ih => simp [heartbeatSendTimes, ih]

/-- Helper: the `i`-th heartbeat goes out `heartbeatInterval * i` seconds
after slot acquisition. -/
theorem heartbeatSendTimes_getD (n : Nat) :
    ∀ i, i ≤ n → (heartbeatSendTimes n).getD i 0 = heartbeatInterval * i := by
  induction n with
  | zero =>
      intro i hi
      interval_cases i
      rfl
  | succ n ih =>
      intro i hi
      rw [heartbeatSendTimes]
      rcases Nat.lt_or_ge i (n + 1) with h | h
      · rw [List.getD_append _ _ _ _ (by rw [heartbeatSendTimes_length]; omega)]
        exact ih i (by omega)
      · have hieq : i = n + 1 := by omega
        subst hieq
        rw [List.getD_eq_getElem?_getD, List.getElem?_append_right
          (by rw [heartbeatSendTimes_length])]
        simp [heartbeatSendTimes_length]

/-- C6 (amended): while a watch slot is held, heartbeats go out immediately on
acquisition and then every 60 seconds; each send makes at most three requests
(2 retries, slept 3 s then 6 s) and retries exactly on a transport error or an
HTTP response other than 200 or 204 (so 2xx responses such as 201 are also
retried, which is where the claim's "non-2xx" wording fails); once the retry
budget is exhausted the send gives up with only a log line — the function has
no error to propagate. -/
theorem heartbeat_retry_amended :
    (∀ out,
      1 ≤ (sendHeartbeat out).requests ∧
      (sendHeartbeat out).requests ≤ heartbeatMaxRetries + 1 ∧
      (sendHeartbeat out).sleeps =
        (List.range ((sendHeartbeat out).requests - 1)).map (fun a => (a + 1) * 3) ∧
      (sendHeartbeat out).success = hbOk (out ((sendHeartbeat out).requests - 1)) ∧
      (∀ j, j + 1 < (sendHeartbeat out).requests → hbOk (out j) = false) ∧
      (sendHeartbeat out).gaveUp = !(sendHeartbeat out).success) ∧
    (∀ o, hbOk o = true ↔ o = HBOutcome.httpStatus 200 ∨ o = HBOutcome.httpStatus 204) ∧
    (∀ n, (heartbeatSendTimes n).length = n + 1) ∧
    (∀ n i, i ≤ n → (heartbeatSendTimes n).getD i 0 = heartbeatInterval * i) := by
  refine ⟨?_, ?_, heartbeatSendTimes_length, heartbeatSendTimes_getD⟩
  · intro out
    obtain ⟨h1, h2, h3, h4, h5, h6⟩ := sendHeartbeatFrom_spec out heartbeatMaxRetries 0
    exact ⟨h1, h2, by simpa using h3, by simpa using h4, fun j hj => by simpa using h5 j hj, h6⟩
  · intro o
    cases o with
    | transportError => simp [hbOk]
    | httpStatus code =>
        simp only [hbOk, Bool.or_eq_true, beq_iff_eq]
        constructor
        · rintro (rfl | rfl) <;> simp
        · rintro (h | h) <;> cases h <;> simp

/-- C6 counterexample: an HTTP 201 response — a 2xx status — is nevertheless
retried to exhaustion: three requests go out, both sleeps are taken, and the
send ends in give-up rather than success. -/
theorem heartbeat_retry_counterexample :
    (sendHeartbeat (fun _ => .httpStatus 201)).requests = 3 ∧
      (sendHeartbeat (fun _ => .httpStatus 201)).sleeps = [3, 6] ∧
      (sendHeartbeat (fun _ => .httpStatus 201)).success = false ∧
      (sendHeartbeat (fun _ => .httpStatus 201)).gaveUp = true ∧
      200 ≤ 201 ∧ 201 < 300 := by
  refine ⟨by decide, by decide, by decide, by decide, by decide, by decide⟩

/-- C6 witness: the amended characterization applied at a concrete outcome
stream (all transport errors), and at a concrete tick index. -/
theorem heartbeat_retry_witness :
    hbOk ((fun _ => HBOutcome.transportError) 0) = false ∧
      (heartbeatSendTimes 2).getD 1 0 = heartbeatInterval * 1 :=
  ⟨(heartbeat_retry_amended.1 (fun _ => HBOutcome.transportError)).2.2.2.2.1 0 (by decide),
   heartbeat_retry_amended.2.2.2 2 1 (by decide)⟩

/-- Helper: membership in the swept cache. -/
theorem mem_cleanupSeen {e : String × Nat} {now : Nat} {seen : List (String × Nat)} :
    e ∈ cleanupSeen now seen ↔ e ∈ seen ∧ now - e.2 ≤ dedupWindow := by
  simp [cleanupSeen, List.mem_filter, Nat.not_lt]

/-- Helper: a recorded identifier is found by the dedup lookup. -/
theorem find?_isSome_of_mem {id : String} {tins : Nat} {seen : List (String × Nat)}
    (h : (id, tins) ∈ seen) :
    (seen.find? (fun e => e.1 = id)).isSome = true := by
  rw [List.find?_isSome]
  exact ⟨(id, tins), h, by simp⟩

/-- Helper: an identifier outside the cache keys is not found by the lookup. -/
theorem find?_eq_none_of_not_mem {id : String} {seen : List (String × Nat)}
    (h : id ∉ seen.map Prod.fst) :
    (seen.find? (fun e => e.1 = id)) = none := by
  rw [List.find?_eq_none]
  intro e he
  simp only [decide_eq_true_eq]
  intro hfst
  exact h (List.mem_map.mpr ⟨e, he, hfst⟩)

/-- Helper: claim-delivery times of a trace headed by the same claim ID. -/
theorem claimTimes_cons_self (id : String) (t : Nat) (rest : List (Nat × FarmerEvent)) :
    claimTimes ((t, FarmerEvent.claimAvailable id) :: rest) id = t :: claimTimes rest id := by
  simp [claimTimes]

/-- Helper: claim-delivery times ignore a different claim ID at the head. -/
theorem claimTimes_cons_other {id cid : String} (hne : cid ≠ id) (t : Nat)
    (rest : List (Nat × FarmerEvent)) :
    claimTimes ((t, FarmerEvent.claimAvailable cid) :: rest) id = claimTimes rest id := by
  simp [claimTimes, hne]

/-- Helper: claim-delivery times ignore a raid event at the head. -/
theorem claimTimes_cons_raid (id rid : String) (t : Nat) (rest : List (Nat × FarmerEvent)) :
    claimTimes ((t, FarmerEvent.raid rid) :: rest) id = claimTimes rest id := by
  simp [claimTimes]

/-- Helper: every claim-delivery time is the time of some event of the trace. -/
theorem claimTimes_sub_times {id : String} {evs : List (Nat × FarmerEvent)} {t : Nat}
    (h : t ∈ claimTimes evs id) : t ∈ evs.map Prod.fst := by
  simp only [claimTimes, List.mem_filterMap] at h
  obtain ⟨e, he, hval⟩ := h
  split at hval
  · cases hval
    exact List.mem_map.mpr ⟨e, he, rfl⟩
  · cases hval

/-- Helper: a raid event leaves the claim cache untouched. -/
theorem handleEvent_raid_claims (now : Nat) (rid : String) (st : DedupState) :
    ((handleEvent now (.raid rid) st).1).seenClaims = st.seenClaims := by
  simp only [handleEvent]
  split <;> rfl

/-- Helper: a raid event never launches a claim task. -/
theorem handleEvent_raid_count_claim (now : Nat) (rid id : String) (st : DedupState) :
    ((handleEvent now (.raid rid) st).2).count (.claimTask id) = 0 := by
  simp only [handleEvent]
  split
  · rfl
  · simp [List.count_cons]

/-- Helper: once a claim ID is in the cache, no further launch of it happens
while each of its later deliveries falls inside the retention window measured
from its recorded insertion time. -/
theorem claims_no_relaunch (id : String) (tins : Nat) :
    ∀ (evs : List (Nat × FarmerEvent)) (st : DedupState),
      (evs.map Prod.fst).Pairwise (· ≤ ·) →
      (∀ t ∈ claimTimes evs id, t ≤ tins + dedupWindow) →
      ((id, tins) ∈ st.seenClaims ∨ claimTimes evs id = []) →
      (processEvents evs st).2.count (.claimTask id) = 0 := by
  intro evs
  induction evs with
  | nil =>
      intro st _ _ _
      simp [processEvents]
  | cons te rest ih =>
      obtain ⟨t, e⟩ := te
      intro st hpw hwin hpres
      rw [List.map_cons, List.pairwise_cons] at hpw
      obtain ⟨hle, hpw'⟩ := hpw
      simp only [processEvents, List.count_append]
      cases e with
      | raid rid =>
          rw [handleEvent_raid_count_claim]
          rw [claimTimes_cons_raid] at hwin hpres
          have hpres2 : (id, tins) ∈ ((handleEvent t (.raid rid) st).1).seenClaims ∨
              claimTimes rest id = [] := by
            rw [handleEvent_raid_claims]
            exact hpres
          simpa using ih _ hpw' hwin hpres2
      | claimAvailable cid =>
          by_cases hcid : cid = id
          · subst hcid
            rw [claimTimes_cons_self] at hwin hpres
            have hmem : (cid, tins) ∈ st.seenClaims := by
              rcases hpres with hmem | hnil
              · exact hmem
              · exact absurd hnil (List.cons_ne_nil _ _)
            have hfound := find?_isSome_of_mem hmem
            simp only [handleEvent, hfound, if_pos]
            rw [List.count_nil]
            simpa using ih _ hpw' (fun t' ht' => hwin t' (List.mem_cons_of_mem _ ht')) (Or.inl hmem)
          · rw [claimTimes_cons_other hcid] at hwin hpres
            by_cases hseen : (st.seenClaims.find? (fun p => p.1 = cid)).isSome = true
            · simp only [handleEvent, hseen, if_pos]
              rw [List.count_nil]
              simpa using ih _ hpw' hwin hpres
            · simp only [handleEvent, hseen, if_neg, Bool.not_eq_true]
              rw [show ([LaunchedTask.claimTask cid]).count (.claimTask id) = 0 by
                simp [List.count_cons, hcid]]
              have hOr : (id, tins) ∈ cleanupSeen t ((cid, t) :: st.seenClaims) ∨
                  claimTimes rest id = [] := by
                rcases hpres with hmem | hnil
                · by_cases hrest2 : claimTimes rest id = []
                  · exact Or.inr hrest2
                  · obtain ⟨t2, ht2⟩ := List.exists_mem_of_ne_nil _ hrest2
                    have ht2win : t2 ≤ tins + dedupWindow := hwin t2 ht2
                    have ht2time : t ≤ t2 := hle t2 (claimTimes_sub_times ht2)
                    refine Or.inl (mem_cleanupSeen.mpr ⟨List.mem_cons_of_mem _ hmem, ?_⟩)
                    simp only
                    omega
                · exact Or.inr hnil
              simpa using ih _ hpw' hwin hOr

/-- Helper: the claim ID stays outside the cache keys across an event that is
not a fresh delivery of it. -/
theorem claims_key_preserved {id cid : String} {t : Nat} {st : DedupState}
    (hcid : cid ≠ id) (h : id ∉ st.seenClaims.map Prod.fst) :
    id ∉ ((handleEvent t (.claimAvailable cid) st).1).seenClaims.map Prod.fst := by
  simp only [handleEvent]
  by_cases hseen : (st.seenClaims.find? (fun p => p.1 = cid)).isSome = true
  · simpa [hseen] using h
  · simp only [hseen, if_neg, Bool.not_eq_true]
    intro hmemk
    obtain ⟨e, he, hfst⟩ := List.mem_map.mp hmemk
    have := mem_cleanupSeen.mp he
    rcases List.mem_cons.mp this.1 with heq | hmem
    · subst heq
      exact hcid hfst
    · exact h (List.mem_map.mpr ⟨e, hmem, hfst⟩)

/-- Helper: a claim ID never seen before is launched exactly once when every
delivery of it falls inside the retention window of the first one. -/
theorem claims_exactly_once (id : String) :
    ∀ (evs : List (Nat × FarmerEvent)) (st : DedupState),
      (evs.map Prod.fst).Pairwise (· ≤ ·) →
      withinWindowOfFirst (claimTimes evs id) →
      id ∉ st.seenClaims.map Prod.fst →
      (processEvents evs st).2.count (.claimTask id) = min (claimTimes evs id).length 1 := by
  intro evs
  induction evs with
  | nil =>
      intro st _ _ _
      simp [processEvents, claimTimes]
  | cons te rest ih =>
      obtain ⟨t, e⟩ := te
      intro st hpw hwin habs
      rw [List.map_cons, List.pairwise_cons] at hpw
      obtain ⟨hle, hpw'⟩ := hpw
      simp only [processEvents, List.count_append]
      cases e with
      | raid rid =>
          rw [handleEvent_raid_count_claim, claimTimes_cons_raid]
          rw [claimTimes_cons_raid] at hwin
          have habs2 : id ∉ ((handleEvent t (.raid rid) st).1).seenClaims.map Prod.fst := by
            rw [handleEvent_raid_claims]
            exact habs
          simpa using ih _ hpw' hwin habs2
      | claimAvailable cid =>
          by_cases hcid : cid = id
          · subst hcid
            have hnone := find?_eq_none_of_not_mem habs
            have hnotsome : ¬ (st.seenClaims.find? (fun e => e.1 = cid)).isSome = true := by
              rw [hnone]
              simp
            simp only [handleEvent, hnotsome, if_neg, Bool.not_eq_true]
            rw [claimTimes_cons_self] at hwin ⊢
            rw [show ([LaunchedTask.claimTask cid]).count (.claimTask cid) = 1 by
              simp [List.count_cons]]
            have hrest := claims_no_relaunch cid t rest
              ⟨cleanupSeen t ((cid, t) :: st.seenClaims), st.seenRaids,
                st.totalClaimsMade, st.totalPointsEarned⟩
              hpw' hwin
              (Or.inl (mem_cleanupSeen.mpr ⟨List.mem_cons_self _ _, by simp⟩))
            rw [hrest]
            simp
          · rw [claimTimes_cons_other hcid] at hwin ⊢
            have habs2 := claims_key_preserved hcid habs (t := t)
            have hcount0 : ((handleEvent t (.claimAvailable cid) st).2).count (.claimTask id) = 0 := by
              simp only [handleEvent]
              by_cases hseen : (st.seenClaims.find? (fun p => p.1 = cid)).isSome = true
              · simp [hseen]
              · simp [hseen, List.count_cons, hcid]
            rw [hcount0]
            simpa using ih _ hpw' hwin habs2

/-- Helper: raid-delivery times of a trace headed by the same raid ID. -/
theorem raidTimes_cons_self (id : String) (t : Nat) (rest : List (Nat × FarmerEvent)) :
    raidTimes ((t, FarmerEvent.raid id) :: rest) id = t :: raidTimes rest id := by
  simp [raidTimes]

/-- Helper: raid-delivery times ignore a different raid ID at the head. -/
theorem raidTimes_cons_other {id rid : String} (hne : rid ≠ id) (t : Nat)
    (rest : List (Nat × FarmerEvent)) :
    raidTimes ((t, FarmerEvent.raid rid) :: rest) id = raidTimes rest id := by
  simp [raidTimes, hne]

/-- Helper: raid-delivery times ignore a claim event at the head. -/
theorem raidTimes_cons_claim (id cid : String) (t : Nat) (rest : List (Nat × FarmerEvent)) :
    raidTimes ((t, FarmerEvent.claimAvailable cid) :: rest) id = raidTimes rest id := by
  simp [raidTimes]

/-- Helper: every raid-delivery time is the time of some event of the trace. -/
theorem raidTimes_sub_times {id : String} {evs : List (Nat × FarmerEvent)} {t : Nat}
    (h : t ∈ raidTimes evs id) : t ∈ evs.map Prod.fst := by
  simp only [raidTimes, List.mem_filterMap] at h
  obtain ⟨e, he, hval⟩ := h
  split at hval
  · cases hval
    exact List.mem_map.mpr ⟨e, he, rfl⟩
  · cases hval

/-- Helper: a claim event leaves the raid cache untouched. -/
theorem handleEvent_claim_raids (now : Nat) (cid : String) (st : DedupState) :
    ((handleEvent now (.claimAvailable cid) st).1).seenRaids = st.seenRaids := by
  simp only [handleEvent]
  split <;> rfl

/-- Helper: a claim event never launches a raid task. -/
theorem handleEvent_claim_count_raid (now : Nat) (cid id : String) (st : DedupState) :
    ((handleEvent now (.claimAvailable cid) st).2).count (.raidTask id) = 0 := by
  simp only [handleEvent]
  split
  · rfl
  · simp [List.count_cons]

/-- Helper: once a raid ID is in the cache, no further launch of it happens
while each of its later deliveries falls inside the retention window measured
from its recorded insertion time. -/
theorem raids_no_relaunch (id : String) (tins : Nat) :
    ∀ (evs : List (Nat × FarmerEvent)) (st : DedupState),
      (evs.map Prod.fst).Pairwise (· ≤ ·) →
      (∀ t ∈ raidTimes evs id, t ≤ tins + dedupWindow) →
      ((id, tins) ∈ st.seenRaids ∨ raidTimes evs id = []) →
      (processEvents evs st).2.count (.raidTask id) = 0 := by
  intro evs
  induction evs with
  | nil =>
      intro st _ _ _
      simp [processEvents]
  | cons te rest ih =>
      obtain ⟨t, e⟩ := te
      intro st hpw hwin hpres
      rw [List.map_cons, List.pairwise_cons] at hpw
      obtain ⟨hle, hpw'⟩ := hpw
      simp only [processEvents, List.count_append]
      cases e with
      | claimAvailable cid =>
          rw [handleEvent_claim_count_raid]
          rw [raidTimes_cons_claim] at hwin hpres
          have hpres2 : (id, tins) ∈ ((handleEvent t (.claimAvailable cid) st).1).seenRaids ∨
              raidTimes rest id = [] := by
            rw [handleEvent_claim_raids]
            exact hpres
          simpa using ih _ hpw' hwin hpres2
      | raid rid =>
          by_cases hrid : rid = id
          · subst hrid
            rw [raidTimes_cons_self] at hwin hpres
            have hmem : (rid, tins) ∈ st.seenRaids := by
              rcases hpres with hmem | hnil
              · exact hmem
              · exact absurd hnil (List.cons_ne_nil _ _)
            have hfound := find?_isSome_of_mem hmem
            simp only [handleEvent, hfound, if_pos]
            rw [List.count_nil]
            simpa using ih _ hpw' (fun t' ht' => hwin t' (List.mem_cons_of_mem _ ht')) (Or.inl hmem)
          · rw [raidTimes_cons_other hrid] at hwin hpres
            by_cases hseen : (st.seenRaids.find? (fun p => p.1 = rid)).isSome = true
            · simp only [handleEvent, hseen, if_pos]
              rw [List.count_nil]
              simpa using ih _ hpw' hwin hpres
            · simp only [handleEvent, hseen, if_neg, Bool.not_eq_true]
              rw [show ([LaunchedTask.raidTask rid]).count (.raidTask id) = 0 by
                simp [List.count_cons, hrid]]
              have hOr : (id, tins) ∈ cleanupSeen t ((rid, t) :: st.seenRaids) ∨
                  raidTimes rest id = [] := by
                rcases hpres with hmem | hnil
                · by_cases hrest2 : raidTimes rest id = []
                  · exact Or.inr hrest2
                  · obtain ⟨t2, ht2⟩ := List.exists_mem_of_ne_nil _ hrest2
                    have ht2win : t2 ≤ tins + dedupWindow := hwin t2 ht2
                    have ht2time : t ≤ t2 := hle t2 (raidTimes_sub_times ht2)
                    refine Or.inl (mem_cleanupSeen.mpr ⟨List.mem_cons_of_mem _ hmem, ?_⟩)
                    simp only
                    omega
                · exact Or.inr hnil
              simpa using ih _ hpw' hwin hOr

/-- Helper: the raid ID stays outside the cache keys across an event that is
not a fresh delivery of it. -/
theorem raids_key_preserved {id rid : String} {t : Nat} {st : DedupState}
    (hrid : rid ≠ id) (h : id ∉ st.seenRaids.map Prod.fst) :
    id ∉ ((handleEvent t (.raid rid) st).1).seenRaids.map Prod.fst := by
  simp only [handleEvent]
  by_cases hseen : (st.seenRaids.find? (fun p => p.1 = rid)).isSome = true
  · simpa [hseen] using h
  · simp only [hseen, if_neg, Bool.not_eq_true]
    intro hmemk
    obtain ⟨e, he, hfst⟩ := List.mem_map.mp hmemk
    have := mem_cleanupSeen.mp he
    rcases List.mem_cons.mp this.1 with heq | hmem
    · subst heq
      exact hrid hfst
    · exact h (List.mem_map.mpr ⟨e, hmem, hfst⟩)

/-- Helper: a raid ID never seen before is launched exactly once when every
delivery of it falls inside the retention window of the first one. -/
theorem raids_exactly_once (id : String) :
    ∀ (evs : List (Nat × FarmerEvent)) (st : DedupState),
      (evs.map Prod.fst).Pairwise (· ≤ ·) →
      withinWindowOfFirst (raidTimes evs id) →
      id ∉ st.seenRaids.map Prod.fst →
      (processEvents evs st).2.count (.raidTask id) = min (raidTimes evs id).length 1 := by
  intro evs
  induction evs with
  | nil =>
      intro st _ _ _
      simp [processEvents, raidTimes]
  | cons te rest ih =>
      obtain ⟨t, e⟩ := te
      intro st hpw hwin habs
      rw [List.map_cons, List.pairwise_cons] at hpw
      obtain ⟨hle, hpw'⟩ := hpw
      simp only [processEvents, List.count_append]
      cases e with
      | claimAvailable cid =>
          rw [handleEvent_claim_count_raid, raidTimes_cons_claim]
          rw [raidTimes_cons_claim] at hwin
          have habs2 : id ∉ ((handleEvent t (.claimAvailable cid) st).1).seenRaids.map Prod.fst := by
            rw [handleEvent_claim_raids]
            exact habs
          simpa using ih _ hpw' hwin habs2
      | raid rid =>
          by_cases hrid : rid = id
          · subst hrid
            have hnone := find?_eq_none_of_not_mem habs
            have hnotsome : ¬ (st.seenRaids.find? (fun e => e.1 = rid)).isSome = true := by
              rw [hnone]
              simp
            simp only [handleEvent, hnotsome, if_neg, Bool.not_eq_true]
            rw [raidTimes_cons_self] at hwin ⊢
            rw [show ([LaunchedTask.raidTask rid]).count (.raidTask rid) = 1 by
              simp [List.count_cons]]
            have hrest := raids_no_relaunch rid t rest
              ⟨st.seenClaims, cleanupSeen t ((rid, t) :: st.seenRaids),
                st.totalClaimsMade, st.totalPointsEarned⟩
              hpw' hwin
              (Or.inl (mem_cleanupSeen.mpr ⟨List.mem_cons_self _ _, by simp⟩))
            rw [hrest]
            simp
          · rw [raidTimes_cons_other hrid] at hwin ⊢
            have habs2 := raids_key_preserved hrid habs (t := t)
            have hcount0 : ((handleEvent t (.raid rid) st).2).count (.raidTask id) = 0 := by
              simp only [handleEvent]
              by_cases hseen : (st.seenRaids.find? (fun p => p.1 = rid)).isSome = true
              · simp [hseen]
              · simp [hseen, List.count_cons, hrid]
            rw [hcount0]
            simpa using ih _ hpw' hwin habs2

/-- C2: a bonus-claim event whose claim ID is already in the `seenClaims`
cache (and a raid event whose raid ID is already in `seenRaids`) makes
`handleEvent` return at once, launching no task and leaving the whole state —
caches and counters — untouched; consequently, over any trace of events
arriving in time order in which every delivery of a given ID falls within the
30-minute retention window of its first delivery, exactly one claim task
(resp. raid task) is launched for that ID. -/
theorem dedup_idempotent :
    (∀ (now : Nat) (id : String) (st : DedupState),
      (st.seenClaims.find? (fun e => e.1 = id)).isSome = true →
      handleEvent now (.claimAvailable id) st = (st, [])) ∧
    (∀ (now : Nat) (id : String) (st : DedupState),
      (st.seenRaids.find? (fun e => e.1 = id)).isSome = true →
      handleEvent now (.raid id) st = (st, [])) ∧
    (∀ (id : String) (evs : List (Nat × FarmerEvent)),
      (evs.map Prod.fst).Pairwise (· ≤ ·) →
      withinWindowOfFirst (claimTimes evs id) →
      (processEvents evs farmerNewState).2.count (.claimTask id) =
        min (claimTimes evs id).length 1) ∧
    (∀ (id : String) (evs : List (Nat × FarmerEvent)),
      (evs.map Prod.fst).Pairwise (· ≤ ·) →
      withinWindowOfFirst (raidTimes evs id) →
      (processEvents evs farmerNewState).2.count (.raidTask id) =
        min (raidTimes evs id).length 1) := by
  refine ⟨?_, ?_, ?_, ?_⟩
  · intro now id st h
    simp [handleEvent, h]
  · intro now id st h
    simp [handleEvent, h]
  · intro id evs hpw hwin
    exact claims_exactly_once id evs farmerNewState hpw hwin (by simp [farmerNewState])
  · intro id evs hpw hwin
    exact raids_exactly_once id evs farmerNewState hpw hwin (by simp [farmerNewState])

/-- C2 witness: the idempotence facts at concrete inputs — a duplicate claim
event is a no-op, and a trace delivering the same claim ID twice and the same
raid ID three times launches one task each. -/
theorem dedup_idempotent_witness :
    handleEvent 5 (.claimAvailable "a") ⟨[("a", 0)], [], 0, 0⟩ = (⟨[("a", 0)], [], 0, 0⟩, []) ∧
    handleEvent 5 (.raid "r") ⟨[], [("r", 0)], 0, 0⟩ = (⟨[], [("r", 0)], 0, 0⟩, []) ∧
    (processEvents [(0, .claimAvailable "a"), (10, .claimAvailable "a"),
        (20, .raid "r"), (21, .raid "r"), (22, .raid "r")] farmerNewState).2.count
      (.claimTask "a") =
      min (claimTimes [(0, .claimAvailable "a"), (10, .claimAvailable "a"),
        (20, .raid "r"), (21, .raid "r"), (22, .raid "r")] "a").length 1 ∧
    (processEvents [(0, .claimAvailable "a"), (10, .claimAvailable "a"),
        (20, .raid "r"), (21, .raid "r"), (22, .raid "r")] farmerNewState).2.count
      (.raidTask "r") =
      min (raidTimes [(0, .claimAvailable "a"), (10, .claimAvailable "a"),
        (20, .raid "r"), (21, .raid "r"), (22, .raid "r")] "r").length 1 :=
  ⟨dedup_idempotent.1 5 "a" ⟨[("a", 0)], [], 0, 0⟩ (by decide),
   dedup_idempotent.2.1 5 "r" ⟨[], [("r", 0)], 0, 0⟩ (by decide),
   dedup_idempotent.2.2.1 "a" _ (by decide)
     (by
       rw [show claimTimes [(0, .claimAvailable "a"), (10, .claimAvailable "a"),
         (20, .raid "r"), (21, .raid "r"), (22, .raid "r")] "a" = [0, 10] from by decide]
       intro t ht
       simp only [List.mem_singleton] at ht
       subst ht
       decide),
   dedup_idempotent.2.2.2 "r" _ (by decide)
     (by
       rw [show raidTimes [(0, .claimAvailable "a"), (10, .claimAvailable "a"),
         (20, .raid "r"), (21, .raid "r"), (22, .raid "r")] "r" = [20, 21, 22] from by decide]
       intro t ht
       fin_cases ht <;> decide)⟩

/-- C5 counterexample: eviction is lazy, not timed.  A claim ID recorded at
time 0 is still in the cache 31 minutes (1860 s) later — even when the same ID
is delivered again at that moment, the duplicate branch returns before the
cleanup sweep runs; the raid cache behaves identically. -/
theorem dedup_eviction_counterexample :
    ("c1", 0) ∈ ((handleEvent 1860 (.claimAvailable "c1")
        (handleEvent 0 (.claimAvailable "c1") farmerNewState).1).1).seenClaims ∧
    ("r1", 0) ∈ ((handleEvent 1860 (.raid "r1")
        (handleEvent 0 (.raid "r1") farmerNewState).1).1).seenRaids := by
  refine ⟨by decide, by decide⟩

/-- C5 (amended): a dedup entry inserted at time `T` is removed by the next
processing of a fresh (unseen) identifier in the same cache at any time later
than `T + 30` minutes; eviction happens only inside such an event, so with no
qualifying event the entry persists past `T + 31` minutes, and a duplicate
delivery leaves the state — the old entry included — untouched. -/
theorem dedup_eviction_amended :
    (∀ (st : DedupState) (now tins : Nat) (id idNew : String),
      (id, tins) ∈ st.seenClaims →
      (st.seenClaims.find? (fun e => e.1 = idNew)).isSome = false →
      dedupWindow < now - tins →
      (id, tins) ∉ ((handleEvent now (.claimAvailable idNew) st).1).seenClaims) ∧
    (∀ (st : DedupState) (now tins : Nat) (id idNew : String),
      (id, tins) ∈ st.seenRaids →
      (st.seenRaids.find? (fun e => e.1 = idNew)).isSome = false →
      dedupWindow < now - tins →
      (id, tins) ∉ ((handleEvent now (.raid idNew) st).1).seenRaids) ∧
    (∀ (st : DedupState) (now : Nat) (id : String),
      (st.seenClaims.find? (fun e => e.1 = id)).isSome = true →
      (handleEvent now (.claimAvailable id) st).1 = st) ∧
    (∀ (st : DedupState) (now : Nat) (id : String),
      (st.seenRaids.find? (fun e => e.1 = id)).isSome = true →
      (handleEvent now (.raid id) st).1 = st) := by
  refine ⟨?_, ?_, ?_, ?_⟩
  · intro st now tins id idNew hmem hfresh hold
    simp only [handleEvent, hfresh, Bool.false_eq_true, if_false]
    intro hin
    have := (mem_cleanupSeen.mp hin).2
    simp only at this
    omega
  · intro st now tins id idNew hmem hfresh hold
    simp only [handleEvent, hfresh, Bool.false_eq_true, if_false]
    intro hin
    have := (mem_cleanupSeen.mp hin).2
    simp only at this
    omega
  · intro st now id h
    simp [handleEvent, h]
  · intro st now id h
    simp [handleEvent, h]

/-- C5 witness: the amended eviction rule at concrete inputs — the entry
recorded at time 0 is gone after a fresh ID arrives at 1860 s, and a
duplicate delivery leaves the state unchanged. -/
theorem dedup_eviction_witness :
    ("old", 0) ∉ ((handleEvent 1860 (.claimAvailable "new")
        ⟨[("old", 0)], [], 0, 0⟩).1).seenClaims ∧
    ("old", 0) ∉ ((handleEvent 1860 (.raid "new") ⟨[], [("old", 0)], 0, 0⟩).1).seenRaids ∧
    (handleEvent 1860 (.claimAvailable "old") ⟨[("old", 0)], [], 0, 0⟩).1 =
      ⟨[("old", 0)], [], 0, 0⟩ ∧
    (handleEvent 1860 (.raid "old") ⟨[], [("old", 0)], 0, 0⟩).1 = ⟨[], [("old", 0)], 0, 0⟩ :=
  ⟨dedup_eviction_amended.1 ⟨[("old", 0)], [], 0, 0⟩ 1860 0 "old" "new"
      (by decide) (by decide) (by decide),
   dedup_eviction_amended.2.1 ⟨[], [("old", 0)], 0, 0⟩ 1860 0 "old" "new"
      (by decide) (by decide) (by decide),
   dedup_eviction_amended.2.2.1 ⟨[("old", 0)], [], 0, 0⟩ 1860 "old" (by decide),
   dedup_eviction_amended.2.2.2 ⟨[], [("old", 0)], 0, 0⟩ 1860 "old" (by decide)⟩

/-- Helper: toggling a watch flag does not change the channel keys. -/
theorem setWatching_map_fst (chans : List (String × Bool)) (id : String) (b : Bool) :
    (setWatching chans id b).map Prod.fst = chans.map Prod.fst := by
  simp only [setWatching, List.map_map]
  refine List.map_congr_left (fun p _ => ?_)
  by_cases h : p.1 = id <;> simp [h]

/-- Helper: `SpadeTracker.StartWatching` on an already-watched channel. -/
theorem spadeStartWatching_mem {s : List String} {id : String} (h : id ∈ s) :
    spadeStartWatching s id = (true, s) := by
  simp [spadeStartWatching, h]

/-- Helper: `SpadeTracker.StartWatching` at capacity refuses. -/
theorem spadeStartWatching_full {s : List String} {id : String} (h : id ∉ s)
    (h2 : maxWatchedChannels ≤ s.length) :
    spadeStartWatching s id = (false, s) := by
  simp [spadeStartWatching, h, h2]

/-- Helper: `SpadeTracker.StartWatching` under capacity inserts. -/
theorem spadeStartWatching_insert {s : List String} {id : String} (h : id ∉ s)
    (h2 : s.length < maxWatchedChannels) :
    spadeStartWatching s id = (true, id :: s) := by
  simp [spadeStartWatching, h, Nat.not_le.mpr h2]

/-- Helper: every farmer operation preserves the watch invariant. -/
theorem farmInv_applyOp {st : FarmState} (h : FarmInv st) (op : FarmOp) :
    FarmInv (applyOp st op) := by
  obtain ⟨hkeys, hnod, hlen, hwatch⟩ := h
  cases op with
  | addChannel id =>
      simp only [applyOp]
      split
      · exact ⟨hkeys, hnod, hlen, hwatch⟩
      case isFalse hnotin =>
        refine ⟨?_, hnod, hlen, ?_⟩
        · rw [List.map_cons, List.nodup_cons]
          exact ⟨hnotin, hkeys⟩
        · intro p hp hpt
          rcases List.mem_cons.mp hp with rfl | hp2
          · cases hpt
          · exact hwatch p hp2 hpt
  | startWatching id =>
      simp only [applyOp, tryStartWatching]
      rcases hfind : st.channels.find? (fun p => p.1 = id) with _ | p
      · simp only [hfind]
        exact ⟨hkeys, hnod, hlen, hwatch⟩
      · simp only [hfind]
        by_cases hp2 : p.2 = true
        · rw [if_pos hp2]
          exact ⟨hkeys, hnod, hlen, hwatch⟩
        · rw [if_neg hp2]
          by_cases hmem : id ∈ st.spadeChannels
          · simp only [spadeStartWatching_mem hmem, if_true]
            refine ⟨by rw [setWatching_map_fst]; exact hkeys, hnod, hlen, ?_⟩
            intro q hq hqt
            obtain ⟨r, hr, hrq⟩ := List.mem_map.mp hq
            by_cases hrid : r.1 = id
            · rw [if_pos hrid] at hrq
              rw [← hrq]
              simpa [hrid] using hmem
            · rw [if_neg hrid] at hrq
              subst hrq
              exact hwatch r hr hqt
          · by_cases hcap : st.spadeChannels.length < maxWatchedChannels
            · simp only [spadeStartWatching_insert hmem hcap, if_true]
              refine ⟨by rw [setWatching_map_fst]; exact hkeys,
                List.nodup_cons.mpr ⟨hmem, hnod⟩, by simpa using hcap, ?_⟩
              intro q hq hqt
              obtain ⟨r, hr, hrq⟩ := List.mem_map.mp hq
              by_cases hrid : r.1 = id
              · rw [if_pos hrid] at hrq
                rw [← hrq]
                simp [hrid]
              · rw [if_neg hrid] at hrq
                subst hrq
                exact List.mem_cons_of_mem _ (hwatch r hr hqt)
            · simp only [spadeStartWatching_full hmem (Nat.not_lt.mp hcap), if_false]
              exact ⟨hkeys, hnod, hlen, hwatch⟩
  | stopWatching id =>
      simp only [applyOp]
      refine ⟨by rw [setWatching_map_fst]; exact hkeys, hnod.erase id,
        le_trans ((st.spadeChannels.erase_sublist id).length_le) hlen, ?_⟩
      intro q hq hqt
      obtain ⟨r, hr, hrq⟩ := List.mem_map.mp hq
      by_cases hrid : r.1 = id
      · rw [if_pos hrid] at hrq
        rw [← hrq] at hqt
        cases hqt
      · rw [if_neg hrid] at hrq
        subst hrq
        exact (List.mem_erase_of_ne hrid).mpr (hwatch r hr hqt)
  | removeChannel id =>
      simp only [applyOp]
      refine ⟨hkeys.sublist (List.Sublist.map _ (List.filter_sublist _)), hnod.erase id,
        le_trans ((st.spadeChannels.erase_sublist id).length_le) hlen, ?_⟩
      intro q hq hqt
      have hmf := List.mem_filter.mp hq
      have hne : q.1 ≠ id := by simpa using hmf.2
      exact (List.mem_erase_of_ne hne).mpr (hwatch q hmf.1 hqt)

/-- Helper: every reachable watch state satisfies the invariant. -/
theorem reachableFarm_inv {st : FarmState} (h : ReachableFarm st) : FarmInv st := by
  induction h with
  | init => exact ⟨List.nodup_nil, List.nodup_nil, by simp [maxWatchedChannels], by simp⟩
  | step op _ ih => exact farmInv_applyOp ih op

/-- C1: in every reachable state of the watch-relevant system, at most two
tracked channels have `IsWatching = true`: the flag is set only after
`SpadeTracker.StartWatching` succeeds, and `StartWatching` never lets the
watched-channel map exceed `maxWatchedChannels = 2`. -/
theorem watching_count_invariant (st : FarmState) (h : ReachableFarm st) :
    watchingCount st ≤ maxWatchedChannels := by
  obtain ⟨hkeys, _, hlen, hwatch⟩ := reachableFarm_inv h
  have hsub : ((st.channels.filter (fun p => p.2)).map Prod.fst) ⊆ st.spadeChannels := by
    intro x hx
    obtain ⟨p, hp, rfl⟩ := List.mem_map.mp hx
    have hmf := List.mem_filter.mp hp
    exact hwatch p hmf.1 (by simpa using hmf.2)
  have hnod2 : ((st.channels.filter (fun p => p.2)).map Prod.fst).Nodup :=
    hkeys.sublist (List.Sublist.map _ (List.filter_sublist _))
  have hle := (List.subperm_of_subset hnod2 hsub).length_le
  rw [List.length_map] at hle
  exact le_trans hle hlen

/-- C1 witness: the invariant applied to a concrete reachable state with two
channels watched. -/
theorem watching_count_invariant_witness :
    watchingCount
      (applyOp (applyOp (applyOp (applyOp ⟨[], []⟩
        (.addChannel "a")) (.addChannel "b")) (.startWatching "a")) (.startWatching "b")) ≤
      maxWatchedChannels :=
  watching_count_invariant _
    (ReachableFarm.step (.startWatching "b")
      (ReachableFarm.step (.startWatching "a")
        (ReachableFarm.step (.addChannel "b")
          (ReachableFarm.step (.addChannel "a") ReachableFarm.init))))

/-- Helper: the Always-priority loop takes the first channels up to capacity
and reports the slots used. -/
theorem rotFillP1_spec :
    ∀ (l : List RotChannel) (used : Nat),
      rotFillP1 l used =
        (l.take (rotMaxSlots - used), used + min l.length (rotMaxSlots - used)) := by
  intro l
  induction l with
  | nil =>
      intro used
      simp [rotFillP1]
  | cons c rest ih =>
      intro used
      by_cases h : rotMaxSlots ≤ used
      · simp [rotFillP1, h, Nat.sub_eq_zero_of_le h]
      · rw [rotFillP1, if_neg h, ih (used + 1)]
        have h2 : rotMaxSlots - used = (rotMaxSlots - (used + 1)) + 1 := by omega
        rw [h2]
        simp only [List.take_succ_cons, List.length_cons, Prod.mk.injEq]
        exact ⟨trivial, by omega⟩

/-- Helper: the Rotate-priority loop takes consecutive entries of the sorted
list modulo its length, starting at the cursor. -/
theorem rotFillP2_spec (p2 : List RotChannel) (idx : Nat) :
    ∀ (k remaining i : Nat), min remaining p2.length - i ≤ k →
      rotFillP2 p2 idx remaining i =
        (List.range' i (min remaining p2.length - i)).map
          (fun j => p2.getD ((idx + j) % p2.length) default) := by
  intro k
  induction k with
  | zero =>
      intro remaining i h
      rw [rotFillP2, dif_neg (by omega)]
      rw [show min remaining p2.length - i = 0 by omega]
      simp
  | succ k ih =>
      intro remaining i h
      rw [rotFillP2]
      by_cases hc : i < remaining ∧ i < p2.length
      · rw [dif_pos hc, ih remaining (i + 1) (by omega)]
        rw [show min remaining p2.length - i = (min remaining p2.length - (i + 1)) + 1 by omega]
        rw [List.range'_succ, List.map_cons]
      · rw [dif_neg hc]
        rw [show min remaining p2.length - i = 0 by omega]
        simp

/-- C4: each run of the rotation computes both partitions sorted ascending by
channel ID (each a permutation of the corresponding online filter of the
input), fills the two slots from the Always-priority list first in that
order, fills any remaining slots from the Rotate-priority list starting at
position `rotationIndex mod len` taking consecutive entries modulo the list
length, and advances the rotation index by the number of remaining slots
modulo the list length (leaving it unchanged when no Rotate slot is filled). -/
theorem rotate_channels_spec (chans : List RotChannel) (rotationIndex : Nat) :
    List.Sorted rotLE (rotPriority1 chans) ∧
    (rotPriority1 chans).Perm (chans.filter (fun c => c.isOnline && c.priority == 1)) ∧
    List.Sorted rotLE (rotPriority2 chans) ∧
    (rotPriority2 chans).Perm (chans.filter (fun c => c.isOnline && !(c.priority == 1))) ∧
    rotateChannelsCompute chans rotationIndex =
      ((rotPriority1 chans).take rotMaxSlots ++
        (if 0 < rotMaxSlots - min (rotPriority1 chans).length rotMaxSlots ∧
            0 < (rotPriority2 chans).length then
          (List.range (min (rotMaxSlots - min (rotPriority1 chans).length rotMaxSlots)
              (rotPriority2 chans).length)).map
            (fun i => (rotPriority2 chans).getD
              ((rotationIndex % (rotPriority2 chans).length + i) % (rotPriority2 chans).length)
              default)
        else []),
       if 0 < rotMaxSlots - min (rotPriority1 chans).length rotMaxSlots ∧
           0 < (rotPriority2 chans).length then
         (rotationIndex + (rotMaxSlots - min (rotPriority1 chans).length rotMaxSlots)) %
           (rotPriority2 chans).length
       else rotationIndex) := by
  refine ⟨List.sorted_insertionSort rotLE _, List.perm_insertionSort rotLE _,
    List.sorted_insertionSort rotLE _, List.perm_insertionSort rotLE _, ?_⟩
  unfold rotateChannelsCompute
  dsimp only
  rw [rotFillP1_spec]
  simp only [Nat.sub_zero, Nat.zero_add]
  by_cases hc : 0 < rotMaxSlots - min (rotPriority1 chans).length rotMaxSlots ∧
      0 < (rotPriority2 chans).length
  · rw [if_pos hc, if_pos hc, if_pos hc]
    rw [rotFillP2_spec (rotPriority2 chans) (rotationIndex % (rotPriority2 chans).length)
      (min (rotMaxSlots - min (rotPriority1 chans).length rotMaxSlots)
        (rotPriority2 chans).length)
      (rotMaxSlots - min (rotPriority1 chans).length rotMaxSlots) 0 (by omega)]
    rw [Nat.sub_zero, ← List.range_eq_range']
  · rw [if_neg hc, if_neg hc, if_neg hc, List.append_nil]

end Twitchpoint
